import Mathlib

/-!
Shallow embedding of the wallet-custody and transaction-authorization core of
the Shadow backend (files `ares.rs`, `zeus.rs`, `poseidon.rs`, `hestia.rs`,
`wallet_handlers.rs`, `error.rs`).

Conventions of the embedding:
* Bytes are `Nat` values below 256; byte strings are `List Nat`.
* The MongoDB collections are lists of records in natural (insertion) order:
  `find_one` returns the first match, `update_one` rewrites the first match,
  `update_many` rewrites every match, `delete_one` removes the first match,
  `insert_one` appends after MongoDB's unique-`_id` index check.
* External cryptographic primitives that the backend consumes but does not
  implement (ed25519, SHA-256, PBKDF2, base58 parsing of Solana types, the
  bincode transaction codec, base64) are passed in as explicit function
  parameters (`CryptoPrims`, `StorePrims`).  The hex and base58 *string
  encodings* used by `zeus.rs` are implemented concretely, since their
  behaviour decides claims about key import.
* Randomness (fresh UUIDs, fresh keypairs, fresh salts) and clock readings
  are explicit arguments of each operation.
-/

/- ===== Generic list helpers modelling the MongoDB operations ===== -/

/-- `update_one`: rewrite the first element satisfying `q` with `f`. -/
def updateFirst {α : Type} (l : List α) (q : α → Bool) (f : α → α) : List α :=
  match l with
  | [] => []
  | x :: xs => if q x then f x :: xs else x :: updateFirst xs q f

/-- `delete_one`: remove the first element satisfying `q`. -/
def deleteFirst {α : Type} (l : List α) (q : α → Bool) : List α :=
  match l with
  | [] => []
  | x :: xs => if q x then xs else x :: deleteFirst xs q

/- ===== ares.rs — ChallengeAuthenticator ===== -/

/-- UTF-8-as-codepoint bytes of an ASCII string (all strings involved are ASCII). -/
def strBytes (s : String) : List Nat := s.data.map Char.toNat

/-- The fixed off-chain signing domain tag `b"\xffsolana offchain message"`
prepended by `verify_signature` (ares.rs line 37). -/
def offchainTag : List Nat := 255 :: strBytes "solana offchain message"

/-- The byte string actually hashed by `verify_signature`: domain tag, then
one length byte `message.len() as u8` (a wrapping cast, i.e. length mod 256,
ares.rs line 38), then the message itself. -/
def prefixedMessage (message : List Nat) : List Nat :=
  offchainTag ++ (message.length % 256 :: message)

/-- External cryptographic primitives consumed by `ares.rs`:
`Signature::from_str` (base58, 64 bytes), `Pubkey::from_str` (base58,
32 bytes), `ed25519_dalek::PublicKey::from_bytes` point validation,
SHA-256, and ed25519 verification. -/
structure CryptoPrims where
  parseSig : String → Option (List Nat)
  parsePubkey : String → Option (List Nat)
  validPoint : List Nat → Bool
  sha256 : List Nat → List Nat
  edVerify : List Nat → List Nat → List Nat → Bool

/-- `AresAuth::verify_signature` (ares.rs lines 20-68): parse the signature
and public key, build the prefixed message, hash it, and verify; the verify
outcome is returned as `Ok(bool)`, while malformed encodings are `Err`. -/
def verify_signature (c : CryptoPrims) (message : List Nat)
    (signature pubkey : String) : Except String Bool :=
  match c.parseSig signature with
  | none => .error "Invalid signature encoding"
  | some sigBytes =>
    match c.parsePubkey pubkey with
    | none => .error "Invalid pubkey"
    | some pkBytes =>
      let messageHash := c.sha256 (prefixedMessage message)
      if c.validPoint pkBytes then
        if sigBytes.length == 64 then
          .ok (c.edVerify messageHash sigBytes pkBytes)
        else .error "Signature must be 64 bytes"
      else .error "Invalid public key"

/-- `AresAuth::create_challenge` (ares.rs lines 71-73). -/
def create_challenge (wallet : String) (timestamp : Int) : String :=
  "Shadow authentication challenge for " ++ wallet ++ " at " ++ toString timestamp

/-- `AresAuth::verify_challenge` (ares.rs lines 76-84): rebuild the canonical
challenge and verify the signature.  Note: it takes no clock reading and
performs no freshness check. -/
def verify_challenge (c : CryptoPrims) (wallet signature : String)
    (timestamp : Int) : Except String Bool :=
  verify_signature c (strBytes (create_challenge wallet timestamp)) signature wallet

/-- The `X-Shadow-Auth` header payload (ares.rs lines 93-98). -/
structure AuthHeader where
  wallet : String
  signature : String
  timestamp : Int

/-- `AuthHeader::verify` (ares.rs lines 108-116): reject timestamps more than
300 seconds from `now`, then delegate to `verify_challenge`. -/
def AuthHeader.verify (c : CryptoPrims) (h : AuthHeader) (now : Int) :
    Except String Bool :=
  if (now - h.timestamp).natAbs > 300 then .error "Challenge expired"
  else verify_challenge c h.wallet h.signature h.timestamp

/-- `ShadowError` (error.rs lines 4-12); the `Database` payload is reduced to
its message string. -/
inductive ShadowError where
  | Database : String → ShadowError
  | Storage : String → ShadowError
  | Solana : String → ShadowError
  | NotFound : String → ShadowError
  | BadRequest : String → ShadowError
  | Unauthorized : ShadowError
deriving DecidableEq

/-- `wallet_handlers::verify_auth` (wallet_handlers.rs lines 367-380), applied
to an already JSON-decoded header: map a verification `Err` to `Unauthorized`
and otherwise return the claimed wallet as the user id.  The `Ok(bool)`
verification outcome is discarded by the `?` statement in the source. -/
def verify_auth (c : CryptoPrims) (h : AuthHeader) (now : Int) :
    Except ShadowError String :=
  match AuthHeader.verify c h now with
  | .error _ => .error ShadowError.Unauthorized
  | .ok _verified => .ok h.wallet

/- ===== Concrete hex and base58 string codecs (hex crate / bs58 crate) ===== -/

/-- Value of one hex digit (`hex::decode` accepts both cases). -/
def hexDigitVal (ch : Char) : Option Nat :=
  if '0' ≤ ch ∧ ch ≤ '9' then some (ch.toNat - '0'.toNat)
  else if 'a' ≤ ch ∧ ch ≤ 'f' then some (ch.toNat - 'a'.toNat + 10)
  else if 'A' ≤ ch ∧ ch ≤ 'F' then some (ch.toNat - 'A'.toNat + 10)
  else none

/-- `hex::decode` on a character list: digit pairs, failing on an odd length
or a non-hex character. -/
def hexDecodeList : List Char → Option (List Nat)
  | [] => some []
  | [_] => none
  | c1 :: c2 :: rest =>
    match hexDigitVal c1, hexDigitVal c2, hexDecodeList rest with
    | some hi, some lo, some bs => some ((16 * hi + lo) :: bs)
    | _, _, _ => none

/-- `hex::decode`. -/
def hexDecode (s : String) : Option (List Nat) := hexDecodeList s.data

/-- Lower-case hex digit for a value below 16 (`hex::encode` is lower-case). -/
def hexDigitChar (n : Nat) : Char :=
  if n < 10 then Char.ofNat ('0'.toNat + n) else Char.ofNat ('a'.toNat + n - 10)

/-- `hex::encode`. -/
def hexEncode (bs : List Nat) : String :=
  String.mk (bs.flatMap (fun b => [hexDigitChar (b / 16), hexDigitChar (b % 16)]))

/-- The Bitcoin base58 alphabet used by the `bs58` crate. -/
def b58Alphabet : List Char :=
  "123456789ABCDEFGHJKLMNPQRSTUVWXYZabcdefghijkmnopqrstuvwxyz".data

/-- Index of a character in the base58 alphabet. -/
def b58Index (ch : Char) : Option Nat :=
  let i := b58Alphabet.findIdx (· == ch)
  if i < 58 then some i else none

/-- Big-endian base58 accumulation; `none` on a character outside the alphabet. -/
def b58DecodeNatAux (acc : Nat) : List Char → Option Nat
  | [] => some acc
  | c :: cs =>
    match b58Index c with
    | some v => b58DecodeNatAux (acc * 58 + v) cs
    | none => none

/-- Minimal big-endian byte representation of a natural number (empty for 0);
`fuel` bounds the recursion and any `fuel ≥` the byte length is enough. -/
def natToBytesBEAux : Nat → Nat → List Nat
  | 0, _ => []
  | fuel + 1, n => if n = 0 then [] else natToBytesBEAux fuel (n / 256) ++ [n % 256]

def natToBytesBE (n : Nat) : List Nat := natToBytesBEAux n n

/-- Leading `'1'` characters of a base58 string decode to leading zero bytes. -/
def countLeadingOnes : List Char → Nat
  | '1' :: cs => countLeadingOnes cs + 1
  | _ => 0

/-- `bs58::decode(..).into_vec()`: leading `'1'`s become zero bytes, the rest
is a big-endian base-58 number (the leading `'1'`s contribute value 0). -/
def bs58Decode (s : String) : Option (List Nat) :=
  match b58DecodeNatAux 0 s.data with
  | some n => some (List.replicate (countLeadingOnes s.data) 0 ++ natToBytesBE n)
  | none => none

/- ===== zeus.rs — CredentialVault ===== -/

/-- The `wallets` collection record (zeus.rs lines 13-25); BSON timestamps are
modelled as naturals. -/
structure Wallet where
  id : String
  user_id : String
  pubkey : String
  name : String
  encrypted_private_key : String
  salt : String
  is_active : Bool
  created_at : Nat
  updated_at : Nat
deriving DecidableEq

/-- `WalletResponse` (zeus.rs lines 42-49). -/
structure WalletResponse where
  id : String
  pubkey : String
  name : String
  is_active : Bool
  balance : Option Nat
deriving DecidableEq

/-- External primitives consumed by `zeus.rs` and `poseidon.rs`: the PBKDF2
key-derivation, `Keypair::from_bytes` (returning the derived base58 public
key on success), the Solana balance RPC, base64, and the bincode transaction
codec (parsed transactions kept as an opaque byte representation). -/
structure StorePrims where
  kdf : String → List Nat → List Nat
  keypairFromBytes : List Nat → Option String
  getBalance : String → Option Nat
  b64decode : String → Option (List Nat)
  b64encode : List Nat → String
  deserializeTx : List Nat → Option (List Nat)
  signTx : List Nat → List Nat → List Nat
  serializeTx : List Nat → Option (List Nat)

/-- `simple_xor_encrypt` (zeus.rs lines 407-412): byte-wise XOR with the
derived key cycled by index. -/
def simple_xor_encrypt (data key : List Nat) : List Nat :=
  data.enum.map (fun p => p.2 ^^^ (key.getD (p.1 % key.length) 0))

/-- `encrypt_private_key` (zeus.rs lines 354-380) with the freshly generated
random salt passed in; returns (ciphertext hex, salt hex). -/
def encrypt_private_key (p : StorePrims) (saltBytes : List Nat)
    (key_bytes : List Nat) (password : String) : String × String :=
  let salt_hex := hexEncode saltBytes
  let key := p.kdf password saltBytes
  let encrypted := simple_xor_encrypt key_bytes key
  (hexEncode encrypted, salt_hex)

/-- `decrypt_private_key` (zeus.rs lines 383-405): hex-decode ciphertext and
salt, re-derive the key, XOR back, and return the result unconditionally —
there is no authentication and no comparison with the stored public key. -/
def decrypt_private_key (p : StorePrims) (encrypted_hex salt_hex password : String) :
    Except String (List Nat) :=
  match hexDecode encrypted_hex with
  | none => .error "Invalid encrypted key format"
  | some encrypted =>
    match hexDecode salt_hex with
    | none => .error "Invalid salt format"
    | some saltBytes =>
      let key := p.kdf password saltBytes
      .ok (simple_xor_encrypt encrypted key)

/-- `get_private_key` (zeus.rs lines 292-305). -/
def get_private_key (p : StorePrims) (st : List Wallet) (wallet_id password : String) :
    Except String (List Nat) :=
  match st.find? (fun w => w.id == wallet_id) with
  | none => .error "Wallet not found"
  | some w => decrypt_private_key p w.encrypted_private_key w.salt password

/-- `update_many {user_id, is_active: true} $set {is_active: false}` — the
"deactivate all" step shared by `create_wallet` and `set_active_wallet`. -/
def deactivate_all (st : List Wallet) (user_id : String) (now : Nat) : List Wallet :=
  st.map (fun w =>
    if w.user_id == user_id && w.is_active then
      { w with is_active := false, updated_at := now }
    else w)

/-- `update_one {_id: wallet_id} $set {is_active: true}` — the "activate one"
step of `set_active_wallet` (note: the filter carries only the id). -/
def activate_one (st : List Wallet) (wallet_id : String) (now : Nat) : List Wallet :=
  updateFirst st (fun w => w.id == wallet_id)
    (fun w => { w with is_active := true, updated_at := now })

/-- `create_wallet` (zeus.rs lines 66-133) with the generated keypair
(`key_bytes`, `pubkey`), fresh UUID, fresh salt and clock passed in. -/
def create_wallet (p : StorePrims) (st : List Wallet)
    (user_id name password : String) (key_bytes : List Nat) (pubkey : String)
    (newId : String) (saltBytes : List Nat) (now : Nat) :
    List Wallet × Except String WalletResponse :=
  let ek := encrypt_private_key p saltBytes key_bytes password
  let existing_count := st.countP (fun w => w.user_id == user_id)
  let is_active := existing_count == 0
  let st1 := if is_active then deactivate_all st user_id now else st
  if st1.any (fun w => w.id == newId) then
    (st1, .error "Database error: duplicate key")
  else
    let wallet : Wallet :=
      { id := newId, user_id := user_id, pubkey := pubkey, name := name,
        encrypted_private_key := ek.1, salt := ek.2, is_active := is_active,
        created_at := now, updated_at := now }
    (st1 ++ [wallet],
     .ok { id := newId, pubkey := pubkey, name := name, is_active := is_active,
           balance := p.getBalance pubkey })

/-- `import_wallet` (zeus.rs lines 136-203): dispatch on the *string length*
(`private_key.len() == 64` chooses the hex branch), length-check the bytes,
derive the keypair, refuse duplicate custody of the same public key (across
all users), and insert with `is_active := false`. -/
def import_wallet (p : StorePrims) (st : List Wallet)
    (user_id name private_key password : String)
    (newId : String) (saltBytes : List Nat) (now : Nat) :
    List Wallet × Except String WalletResponse :=
  let keyBytesE : Except String (List Nat) :=
    if private_key.utf8ByteSize == 64 then
      match hexDecode private_key with
      | some b => .ok b
      | none => .error "Invalid hex private key"
    else
      match bs58Decode private_key with
      | some b => .ok b
      | none => .error "Invalid base58 private key"
  match keyBytesE with
  | .error e => (st, .error e)
  | .ok key_bytes =>
    if key_bytes.length ≠ 64 then (st, .error "Private key must be 64 bytes")
    else
      match p.keypairFromBytes key_bytes with
      | none => (st, .error "Invalid keypair bytes")
      | some pubkey =>
        match st.find? (fun w => w.pubkey == pubkey) with
        | some _ => (st, .error "Wallet already imported")
        | none =>
          let ek := encrypt_private_key p saltBytes key_bytes password
          if st.any (fun w => w.id == newId) then
            (st, .error "Database error: duplicate key")
          else
            let wallet : Wallet :=
              { id := newId, user_id := user_id, pubkey := pubkey, name := name,
                encrypted_private_key := ek.1, salt := ek.2, is_active := false,
                created_at := now, updated_at := now }
            (st ++ [wallet],
             .ok { id := newId, pubkey := pubkey, name := name, is_active := false,
                   balance := p.getBalance pubkey })

/-- `set_active_wallet` (zeus.rs lines 254-289): ownership check by a read,
then "deactivate all, activate one" as two separate unconditional updates. -/
def set_active_wallet (st : List Wallet) (user_id wallet_id : String) (now : Nat) :
    List Wallet × Except String Unit :=
  match st.find? (fun w => w.id == wallet_id && w.user_id == user_id) with
  | none => (st, .error "Wallet not found")
  | some _ =>
    let st1 := deactivate_all st user_id now
    (activate_one st1 wallet_id now, .ok ())

/-- `delete_wallet` (zeus.rs lines 308-351): ownership check, sole-wallet
refusal, `delete_one {_id}`, and reactivation of the first remaining wallet
of the user when the deleted one was active. -/
def delete_wallet (st : List Wallet) (user_id wallet_id : String) (now : Nat) :
    List Wallet × Except String Unit :=
  match st.find? (fun w => w.id == wallet_id && w.user_id == user_id) with
  | none => (st, .error "Wallet not found")
  | some wallet =>
    let count := st.countP (fun w => w.user_id == user_id)
    if count ≤ 1 then (st, .error "Cannot delete the only wallet")
    else
      let st1 := deleteFirst st (fun w => w.id == wallet_id)
      if wallet.is_active then
        match st1.find? (fun w => w.user_id == user_id) with
        | some newActive => (activate_one st1 newActive.id now, .ok ())
        | none => (st1, .ok ())
      else (st1, .ok ())

/- ===== poseidon.rs — TransactionAuthorizer ===== -/

/-- `TransactionStatus` (poseidon.rs lines 28-36). -/
inductive TransactionStatus where
  | Pending
  | Approved
  | Rejected
  | Signed
  | Failed
deriving DecidableEq

/-- The `pending_transactions` collection record (poseidon.rs lines 14-26). -/
structure PendingTransaction where
  id : String
  user_id : String
  wallet_id : String
  dapp_origin : String
  transaction_data : String
  message : Option String
  status : TransactionStatus
  created_at : Nat
  updated_at : Nat
deriving DecidableEq

/-- `TransactionResponse` (poseidon.rs lines 52-58). -/
structure TransactionResponse where
  id : String
  status : TransactionStatus
  signed_transaction : Option String
  message : Option String
deriving DecidableEq

/-- `create_transaction` (poseidon.rs lines 74-113): validate that the blob
base64-decodes and bincode-deserializes; only then insert a `Pending` record. -/
def create_transaction (p : StorePrims) (st : List PendingTransaction)
    (user_id wallet_id dapp_origin transaction_data : String)
    (message : Option String) (newId : String) (now : Nat) :
    List PendingTransaction × Except String TransactionResponse :=
  match p.b64decode transaction_data with
  | none => (st, .error "Invalid base64 transaction data")
  | some tx_bytes =>
    match p.deserializeTx tx_bytes with
    | none => (st, .error "Invalid transaction format")
    | some _ =>
      let pending : PendingTransaction :=
        { id := newId, user_id := user_id, wallet_id := wallet_id,
          dapp_origin := dapp_origin, transaction_data := transaction_data,
          message := message, status := .Pending, created_at := now,
          updated_at := now }
      if st.any (fun t => t.id == newId) then
        (st, .error "Database error: duplicate key")
      else
        (st ++ [pending],
         .ok { id := newId, status := .Pending, signed_transaction := none,
               message := message })

/-- The read phase of `sign_transaction` (poseidon.rs lines 155-163):
`find_one {_id, user_id}` followed by the in-memory status check. -/
def sign_lookup (st : List PendingTransaction) (transaction_id user_id : String) :
    Except String PendingTransaction :=
  match st.find? (fun t => t.id == transaction_id && t.user_id == user_id) with
  | none => .error "Transaction not found"
  | some tx =>
    if tx.status ≠ .Pending then .error "Transaction already processed"
    else .ok tx

/-- The write phase of `sign_transaction` (poseidon.rs lines 187-199):
`update_one {_id: transaction_id} $set {status: "signed", updated_at}` — the
filter carries only the id, neither the owner nor the expected prior status. -/
def sign_commit (st : List PendingTransaction) (transaction_id : String) (now : Nat) :
    List PendingTransaction :=
  updateFirst st (fun t => t.id == transaction_id)
    (fun t => { t with status := .Signed, updated_at := now })

/-- `sign_transaction` (poseidon.rs lines 146-207): read, check `Pending`,
run the external codec and keypair, then commit the status write and return
the re-serialized signed blob to the caller only. -/
def sign_transaction (p : StorePrims) (st : List PendingTransaction)
    (transaction_id user_id : String) (private_key : List Nat) (now : Nat) :
    List PendingTransaction × Except String TransactionResponse :=
  match sign_lookup st transaction_id user_id with
  | .error e => (st, .error e)
  | .ok tx =>
    match p.b64decode tx.transaction_data with
    | none => (st, .error "Invalid transaction data")
    | some tx_bytes =>
      match p.deserializeTx tx_bytes with
      | none => (st, .error "Invalid transaction format")
      | some transaction =>
        match p.keypairFromBytes private_key with
        | none => (st, .error "Invalid private key")
        | some _ =>
          let signedTx := p.signTx transaction private_key
          match p.serializeTx signedTx with
          | none => (st, .error "Failed to serialize transaction")
          | some signed_data =>
            let signed_base64 := p.b64encode signed_data
            (sign_commit st transaction_id now,
             .ok { id := tx.id, status := .Signed,
                   signed_transaction := some signed_base64,
                   message := tx.message })

/-- `reject_transaction` (poseidon.rs lines 210-232): a single
`update_one {_id, user_id} $set {status: "rejected", updated_at}` with no
status condition anywhere, returning `Ok(())` unconditionally. -/
def reject_transaction (st : List PendingTransaction)
    (transaction_id user_id : String) (now : Nat) :
    List PendingTransaction × Except String Unit :=
  (updateFirst st (fun t => t.id == transaction_id && t.user_id == user_id)
     (fun t => { t with status := .Rejected, updated_at := now }),
   .ok ())

/-- `get_transaction` (poseidon.rs lines 235-259): the `signed_transaction`
field of the response is populated from the *stored* `transaction_data`
whenever the status is `Signed`. -/
def get_transaction (st : List PendingTransaction)
    (transaction_id user_id : String) : Option TransactionResponse :=
  match st.find? (fun t => t.id == transaction_id && t.user_id == user_id) with
  | none => none
  | some tx =>
    some { id := tx.id, status := tx.status,
           signed_transaction :=
             if tx.status == .Signed then some tx.transaction_data else none,
           message := tx.message }

/- ===== hestia.rs — ConnectionAuthorizer ===== -/

/-- `Permission` (hestia.rs lines 23-30). -/
inductive Permission where
  | ViewBalance
  | RequestTransaction
  | SignMessage
  | ViewPublicKey
deriving DecidableEq

/-- The `dapp_connections` collection record (hestia.rs lines 9-21). -/
structure DAppConnection where
  id : String
  user_id : String
  wallet_id : String
  dapp_origin : String
  dapp_name : String
  dapp_icon : Option String
  permissions : List Permission
  connected_at : Nat
  last_used : Nat
deriving DecidableEq

/-- Filter for the live connection of a `(user, wallet, origin)` triple. -/
def tripleMatch (user_id wallet_id dapp_origin : String) (c : DAppConnection) : Bool :=
  c.user_id == user_id && c.wallet_id == wallet_id && c.dapp_origin == dapp_origin

/-- `connect_dapp` (hestia.rs lines 65-148): if a connection for the triple
exists, replace its permission set and refresh `last_used` in place
(`update_one {_id}`); otherwise insert a fresh record. -/
def connect_dapp (st : List DAppConnection)
    (user_id wallet_id dapp_origin dapp_name : String) (dapp_icon : Option String)
    (requested_permissions : List Permission) (newId : String) (now : Nat) :
    List DAppConnection × Except String DAppConnection :=
  match st.find? (tripleMatch user_id wallet_id dapp_origin) with
  | some conn =>
    let conn' := { conn with permissions := requested_permissions, last_used := now }
    (updateFirst st (fun c => c.id == conn.id)
       (fun c => { c with permissions := requested_permissions, last_used := now }),
     .ok conn')
  | none =>
    let connection : DAppConnection :=
      { id := newId, user_id := user_id, wallet_id := wallet_id,
        dapp_origin := dapp_origin, dapp_name := dapp_name,
        dapp_icon := dapp_icon, permissions := requested_permissions,
        connected_at := now, last_used := now }
    if st.any (fun c => c.id == newId) then
      (st, .error "Database error: duplicate key")
    else
      (st ++ [connection], .ok connection)

/-- `has_permission` (hestia.rs lines 202-226): look up the live connection
for the triple and test membership; `false` when no connection exists. -/
def has_permission (st : List DAppConnection)
    (user_id wallet_id dapp_origin : String) (permission : Permission) : Bool :=
  match st.find? (tripleMatch user_id wallet_id dapp_origin) with
  | some conn => conn.permissions.contains permission
  | none => false

/- ===== Wallet-activation invariant infrastructure ===== -/

/-- The active-wallet predicate for one user. -/
def activeFor (u : String) (w : Wallet) : Bool := w.user_id == u && w.is_active

/-- Number of `active=true` wallets a user owns. -/
def activeCount (st : List Wallet) (u : String) : Nat := st.countP (activeFor u)

/-- The `_id` column of the `wallets` collection. -/
def walletIds (st : List Wallet) : List String := st.map (fun w => w.id)

/-- MongoDB's unique-`_id` index, as a store invariant. -/
def NodupIds (st : List Wallet) : Prop := (walletIds st).Nodup

/-- At most one active wallet per user. -/
def atMostOneActive (st : List Wallet) : Prop := ∀ u, activeCount st u ≤ 1

/-- One CredentialVault call with its random/clock inputs made explicit. -/
inductive ZeusOp where
  | create (user name password : String) (key_bytes : List Nat)
      (pubkey newId : String) (saltBytes : List Nat) (now : Nat)
  | importW (user name private_key password newId : String)
      (saltBytes : List Nat) (now : Nat)
  | setActive (user wallet_id : String) (now : Nat)
  | deleteW (user wallet_id : String) (now : Nat)

/-- Store effect of one CredentialVault call. -/
def applyZeusOp (p : StorePrims) (st : List Wallet) : ZeusOp → List Wallet
  | .create u n pw kb pk newId s t => (create_wallet p st u n pw kb pk newId s t).1
  | .importW u n k pw newId s t => (import_wallet p st u n k pw newId s t).1
  | .setActive u wid t => (set_active_wallet st u wid t).1
  | .deleteW u wid t => (delete_wallet st u wid t).1

/-- Store effect of a sequence of CredentialVault calls. -/
def runZeusOps (p : StorePrims) (ops : List ZeusOp) (st : List Wallet) : List Wallet :=
  ops.foldl (applyZeusOp p) st

/-- The per-record body of `deactivate_all`, named for decomposition proofs. -/
def deactivateRecord (u : String) (now : Nat) (w : Wallet) : Wallet :=
  if w.user_id == u && w.is_active then
    { w with is_active := false, updated_at := now }
  else w

/-- Concrete instantiation of the external primitives in which every byte
string is accepted: parsing, the codec and the keypair all succeed. -/
def testStorePrims : StorePrims :=
  { kdf := fun _ _ => List.replicate 32 7,
    keypairFromBytes := fun _ => some "PK1",
    getBalance := fun _ => none,
    b64decode := fun _ => some [],
    b64encode := fun _ => "",
    deserializeTx := fun b => some b,
    signTx := fun t _ => t,
    serializeTx := fun t => some t }

/-- A 65-character base58 string decoding to a 64-byte private key
(61 leading `'1'`s, then `"68GP"` = 1000000 = bytes 15,66,64). -/
def importFirstKey : String := String.mk (List.replicate 61 '1') ++ "68GP"

/-- A pending transaction record used as concrete input. -/
def txPending : PendingTransaction :=
  { id := "t1", user_id := "u1", wallet_id := "w1",
    dapp_origin := "https://dapp.example", transaction_data := "AA==",
    message := none, status := .Pending, created_at := 0, updated_at := 0 }

/-- The same record after it was signed. -/
def txSigned : PendingTransaction := { txPending with status := .Signed }

/-- An active wallet of user `u1`. -/
def w1Active : Wallet :=
  { id := "w1", user_id := "u1", pubkey := "PK1", name := "one",
    encrypted_private_key := "", salt := "", is_active := true,
    created_at := 0, updated_at := 0 }

/-- A second, inactive wallet of user `u1`. -/
def w2Inactive : Wallet :=
  { id := "w2", user_id := "u1", pubkey := "PK2", name := "two",
    encrypted_private_key := "", salt := "", is_active := false,
    created_at := 0, updated_at := 0 }

set_option maxRecDepth 10000

/-- Crypto primitives in which every encoding parses and every signature
verifies — the honest-signer extreme of the external ed25519 scheme. -/
def allValidCrypto : CryptoPrims :=
  { parseSig := fun _ => some (List.replicate 64 0),
    parsePubkey := fun _ => some (List.replicate 32 0),
    validPoint := fun _ => true,
    sha256 := fun b => b,
    edVerify := fun _ _ _ => true }

/-- Crypto primitives in which every encoding parses but no signature
verifies — a well-formed but mismatched signature. -/
def mismatchCrypto : CryptoPrims :=
  { allValidCrypto with edVerify := fun _ _ _ => false }

/-- Store primitives whose key-derivation distinguishes the password
`"correct"` from every other password. -/
def wrongPwPrims : StorePrims :=
  { testStorePrims with
      kdf := fun pw _ =>
        if pw == "correct" then List.replicate 32 7 else List.replicate 32 9 }

/-- A wallet whose 64-byte key (all bytes 3) was encrypted under the password
`"correct"`; its stored public key is `"OrigPK"`. -/
def storedWallet : Wallet :=
  { id := "w1", user_id := "u1", pubkey := "OrigPK", name := "main",
    encrypted_private_key :=
      (encrypt_private_key wrongPwPrims (List.replicate 16 0)
        (List.replicate 64 3) "correct").1,
    salt :=
      (encrypt_private_key wrongPwPrims (List.replicate 16 0)
        (List.replicate 64 3) "correct").2,
    is_active := true, created_at := 0, updated_at := 0 }

/-- A connection of `(u1, w1, https://dapp.example)` holding `ViewBalance`. -/
def connExample : DAppConnection :=
  { id := "c1", user_id := "u1", wallet_id := "w1",
    dapp_origin := "https://dapp.example", dapp_name := "Example",
    dapp_icon := none, permissions := [Permission.ViewBalance],
    connected_at := 0, last_used := 0 }

/- ===== Generic lemmas about the collection helpers ===== -/

/-- A successful `find?` splits the list at the first match. -/
theorem find?_eq_some_split {α : Type} {p : α → Bool} {l : List α} {a : α}
    (h : l.find? p = some a) :
    ∃ l1 l2, l = l1 ++ a :: l2 ∧ p a = true ∧ ∀ x ∈ l1, p x = false := by
  induction l with
  | nil => simp at h
  | cons x xs ih =>
    by_cases hx : p x = true
    · rw [List.find?_cons_of_pos _ hx] at h
      obtain rfl : x = a := by injection h
      exact ⟨[], xs, rfl, hx, by simp⟩
    · rw [List.find?_cons_of_neg _ (by simpa using hx)] at h
      obtain ⟨l1, l2, rfl, hpa, hl1⟩ := ih h
      refine ⟨x :: l1, l2, rfl, hpa, ?_⟩
      intro y hy
      rcases List.mem_cons.mp hy with rfl | hy
      · simpa using hx
      · exact hl1 y hy

/-- `find?` skips a prefix of non-matches. -/
theorem find?_append_of_prefix_none {α : Type} {p : α → Bool} {l1 : List α}
    (l2 : List α) (h : ∀ x ∈ l1, p x = false) :
    (l1 ++ l2).find? p = l2.find? p := by
  induction l1 with
  | nil => rfl
  | cons x xs ih =>
    rw [List.cons_append, List.find?_cons_of_neg _ (by simp [h x (by simp)])]
    exact ih (fun y hy => h y (by simp [hy]))

/-- `updateFirst` past a prefix of non-matches rewrites exactly the pivot. -/
theorem updateFirst_append {α : Type} {q : α → Bool} {l1 : List α} {a : α}
    (l2 : List α) (f : α → α) (h1 : ∀ x ∈ l1, q x = false) (ha : q a = true) :
    updateFirst (l1 ++ a :: l2) q f = l1 ++ f a :: l2 := by
  induction l1 with
  | nil => simp [updateFirst, ha]
  | cons x xs ih =>
    have hx := h1 x (List.mem_cons_self x xs)
    simp only [List.cons_append, updateFirst, hx]
    rw [if_neg (by simp)]
    exact congrArg (List.cons x) (ih (fun y hy => h1 y (by simp [hy])))

/-- `deleteFirst` past a prefix of non-matches removes exactly the pivot. -/
theorem deleteFirst_append {α : Type} {q : α → Bool} {l1 : List α} {a : α}
    (l2 : List α) (h1 : ∀ x ∈ l1, q x = false) (ha : q a = true) :
    deleteFirst (l1 ++ a :: l2) q = l1 ++ l2 := by
  induction l1 with
  | nil => simp [deleteFirst, ha]
  | cons x xs ih =>
    have hx := h1 x (List.mem_cons_self x xs)
    simp only [List.cons_append, deleteFirst, hx]
    rw [if_neg (by simp)]
    exact congrArg (List.cons x) (ih (fun y hy => h1 y (by simp [hy])))

/-- In a list whose images under `idOf` are pairwise distinct, no element on
either side of a split shares the pivot's image. -/
theorem nodup_map_split {α β : Type} (idOf : α → β) {l1 l2 : List α} {a : α}
    (h : ((l1 ++ a :: l2).map idOf).Nodup) :
    (∀ x ∈ l1, idOf x ≠ idOf a) ∧ (∀ x ∈ l2, idOf x ≠ idOf a) := by
  rw [List.map_append, List.map_cons, List.nodup_append] at h
  obtain ⟨_, h2, h3⟩ := h
  constructor
  · intro x hx heq
    exact h3 (List.mem_map_of_mem idOf hx) (by simp [heq])
  · intro x hx heq
    rcases List.nodup_cons.mp h2 with ⟨hnotin, _⟩
    exact hnotin (heq ▸ List.mem_map_of_mem idOf hx)

/-- Every record of a store deactivated for `u` fails `activeFor u`. -/
theorem deactivate_all_not_active (st : List Wallet) (u : String) (now : Nat) :
    ∀ w ∈ deactivate_all st u now, activeFor u w = false := by
  intro w hw
  rw [deactivate_all, List.mem_map] at hw
  obtain ⟨x, _, rfl⟩ := hw
  by_cases hc : (x.user_id == u && x.is_active) = true
  · simp [activeFor, hc]
  · simp only [if_neg hc]
    simpa [activeFor] using hc

/-- Deactivating for `u` zeroes `u`'s active count. -/
theorem activeCount_deactivate_all_self (st : List Wallet) (u : String) (now : Nat) :
    activeCount (deactivate_all st u now) u = 0 := by
  rw [activeCount, List.countP_eq_zero]
  intro w hw
  simp [deactivate_all_not_active st u now w hw]

/-- Deactivating for `u` leaves every other user's active count unchanged. -/
theorem activeCount_deactivate_all_other (st : List Wallet) (u u' : String)
    (now : Nat) (hne : u' ≠ u) :
    activeCount (deactivate_all st u now) u' = activeCount st u' := by
  induction st with
  | nil => rfl
  | cons w ws ih =>
    by_cases hc : (w.user_id == u && w.is_active) = true
    · have hu : w.user_id = u := by
        have := (Bool.and_eq_true _ _).mp hc
        exact beq_iff_eq.mp this.1
      have h1 : activeFor u' { w with is_active := false, updated_at := now } = false := by
        simp [activeFor, hu, Ne.symm hne]
      have h2 : activeFor u' w = false := by simp [activeFor, hu, Ne.symm hne]
      simp only [deactivate_all, List.map_cons, if_pos hc, activeCount,
        List.countP_cons, h1, h2] at ih ⊢
      simpa [activeCount, deactivate_all] using ih
    · simp only [deactivate_all, List.map_cons, if_neg hc, activeCount,
        List.countP_cons] at ih ⊢
      simpa [activeCount, deactivate_all] using ih

/-- Deactivation does not change the `_id` column. -/
theorem walletIds_deactivate_all (st : List Wallet) (u : String) (now : Nat) :
    walletIds (deactivate_all st u now) = walletIds st := by
  induction st with
  | nil => rfl
  | cons w ws ih =>
    by_cases hc : (w.user_id == u && w.is_active) = true
    · simp only [deactivate_all, walletIds, List.map_cons, if_pos hc] at ih ⊢
      rw [ih]
    · simp only [deactivate_all, walletIds, List.map_cons, if_neg hc] at ih ⊢
      rw [ih]

/-- Appending a record with a fresh id keeps the `_id` column duplicate-free. -/
theorem nodupIds_append_fresh {st : List Wallet} {w : Wallet}
    (hnd : NodupIds st) (hfresh : st.any (fun x => x.id == w.id) = false) :
    NodupIds (st ++ [w]) := by
  have hno : ∀ x ∈ st, x.id ≠ w.id := by
    intro x hx
    have := List.any_eq_false.mp hfresh x hx
    simpa using this
  rw [NodupIds, walletIds, List.map_append, List.nodup_append]
  refine ⟨hnd, by simp, ?_⟩
  intro a ha hb
  simp only [List.map_cons, List.map_nil, List.mem_singleton] at hb
  rw [List.mem_map] at ha
  obtain ⟨x, hx, rfl⟩ := ha
  exact hno x hx hb

/-- `countP` vanishes for a predicate implying one that vanishes. -/
theorem countP_zero_of_imp {α : Type} {p q : α → Bool} {l : List α}
    (h : l.countP q = 0) (himp : ∀ x, p x = true → q x = true) :
    l.countP p = 0 := by
  rw [List.countP_eq_zero] at h ⊢
  intro a ha hpa
  exact h a ha (himp a hpa)

/-- Active counts add across concatenation. -/
theorem activeCount_append (st1 st2 : List Wallet) (u : String) :
    activeCount (st1 ++ st2) u = activeCount st1 u + activeCount st2 u :=
  List.countP_append _ _ _

/-- Inserting a fresh-id record preserves both invariants when the combined
active counts stay bounded. -/
theorem inv_append_wallet {st : List Wallet} {w : Wallet}
    (hnd : NodupIds st) (hfresh : st.any (fun x => x.id == w.id) = false)
    (hcount : ∀ u, activeCount st u + activeCount [w] u ≤ 1) :
    NodupIds (st ++ [w]) ∧ atMostOneActive (st ++ [w]) := by
  refine ⟨nodupIds_append_fresh hnd hfresh, ?_⟩
  intro u
  rw [activeCount_append]
  exact hcount u

/-- Active count of a one-record store. -/
theorem activeCount_singleton (w : Wallet) (u : String) :
    activeCount [w] u = if (w.user_id == u && w.is_active) = true then 1 else 0 := by
  simp [activeCount, activeFor, List.countP_cons, List.countP_nil]

/-- `create_wallet` preserves the unique-id and single-active invariants. -/
theorem create_wallet_inv (p : StorePrims) (st : List Wallet)
    (u n pw : String) (kb : List Nat) (pk newId : String) (s : List Nat) (t : Nat)
    (hnd : NodupIds st) (hone : atMostOneActive st) :
    NodupIds (create_wallet p st u n pw kb pk newId s t).1 ∧
    atMostOneActive (create_wallet p st u n pw kb pk newId s t).1 := by
  rw [create_wallet]
  by_cases hcnt : (st.countP (fun w => w.user_id == u) == 0) = true
  · have hnd1 : NodupIds (deactivate_all st u t) := by
      rw [NodupIds, walletIds_deactivate_all]; exact hnd
    have hone1 : atMostOneActive (deactivate_all st u t) := by
      intro u'
      by_cases hu : u' = u
      · subst hu; rw [activeCount_deactivate_all_self]; omega
      · rw [activeCount_deactivate_all_other st u u' t hu]; exact hone u'
    rw [if_pos hcnt]
    by_cases hdup : ((deactivate_all st u t).any (fun w => w.id == newId)) = true
    · rw [if_pos hdup]
      exact ⟨hnd1, hone1⟩
    · rw [if_neg hdup]
      refine inv_append_wallet hnd1 (by simpa using hdup) ?_
      intro u'
      by_cases hu : u' = u
      · subst hu
        rw [activeCount_deactivate_all_self, activeCount_singleton]
        split <;> omega
      · rw [activeCount_deactivate_all_other st u u' t hu, activeCount_singleton]
        have h0 : (u == u') = false := by
          simpa using fun h => hu (Eq.symm h)
        simp [h0]
        exact hone u'
  · rw [if_neg hcnt]
    by_cases hdup : (st.any (fun w => w.id == newId)) = true
    · rw [if_pos hdup]
      exact ⟨hnd, hone⟩
    · rw [if_neg hdup]
      refine inv_append_wallet hnd (by simpa using hdup) ?_
      intro u'
      have hfalse : (st.countP (fun w => w.user_id == u) == 0) = false := by
        simpa using hcnt
      rw [activeCount_singleton]
      simp [hfalse]
      exact hone u'

/-- `import_wallet` preserves the unique-id and single-active invariants. -/
theorem import_wallet_inv (p : StorePrims) (st : List Wallet)
    (u n k pw newId : String) (s : List Nat) (t : Nat)
    (hnd : NodupIds st) (hone : atMostOneActive st) :
    NodupIds (import_wallet p st u n k pw newId s t).1 ∧
    atMostOneActive (import_wallet p st u n k pw newId s t).1 := by
  rw [import_wallet]
  split
  · exact ⟨hnd, hone⟩
  · split
    · exact ⟨hnd, hone⟩
    · split
      · exact ⟨hnd, hone⟩
      · split
        · exact ⟨hnd, hone⟩
        · split
          · exact ⟨hnd, hone⟩
          · rename_i hdup
            refine inv_append_wallet hnd (by simpa using hdup) ?_
            intro u'
            rw [activeCount_singleton]
            simp
            exact hone u'

theorem deactivate_all_eq (st : List Wallet) (u : String) (now : Nat) :
    deactivate_all st u now = st.map (deactivateRecord u now) := rfl

theorem deactivate_all_append (a b : List Wallet) (u : String) (now : Nat) :
    deactivate_all (a ++ b) u now = deactivate_all a u now ++ deactivate_all b u now := by
  simp [deactivate_all_eq]

theorem deactivate_all_cons (w : Wallet) (l : List Wallet) (u : String) (now : Nat) :
    deactivate_all (w :: l) u now = deactivateRecord u now w :: deactivate_all l u now := rfl

theorem deactivateRecord_id (u : String) (now : Nat) (w : Wallet) :
    (deactivateRecord u now w).id = w.id := by
  rw [deactivateRecord]; split <;> rfl

/-- Re-activating a possibly-deactivated record is re-activating the record. -/
theorem activate_deactivateRecord (u : String) (t : Nat) (w : Wallet) :
    { deactivateRecord u t w with is_active := true, updated_at := t }
      = { w with is_active := true, updated_at := t } := by
  rw [deactivateRecord]; split <;> rfl

/-- `set_active_wallet` preserves the unique-id and single-active invariants. -/
theorem set_active_wallet_inv (st : List Wallet) (u wid : String) (t : Nat)
    (hnd : NodupIds st) (hone : atMostOneActive st) :
    NodupIds (set_active_wallet st u wid t).1 ∧
    atMostOneActive (set_active_wallet st u wid t).1 := by
  cases hfind : st.find? (fun w => w.id == wid && w.user_id == u) with
  | none => simp only [set_active_wallet, hfind]; exact ⟨hnd, hone⟩
  | some w =>
    obtain ⟨l1, l2, hst, hpw, _⟩ := find?_eq_some_split hfind
    have hwid : w.id = wid := beq_iff_eq.mp ((Bool.and_eq_true _ _).mp hpw).1
    have hwu : w.user_id = u := beq_iff_eq.mp ((Bool.and_eq_true _ _).mp hpw).2
    subst hst
    have hsplit := nodup_map_split (fun x : Wallet => x.id)
      (by simpa [NodupIds, walletIds] using hnd)
    have hpre : ∀ x ∈ deactivate_all l1 u t, (x.id == wid) = false := by
      intro x hx
      rw [deactivate_all_eq, List.mem_map] at hx
      obtain ⟨x0, hx0, rfl⟩ := hx
      have hne := hsplit.1 x0 hx0
      rw [deactivateRecord_id]
      simpa using hwid ▸ hne
    have hpiv : ((deactivateRecord u t w).id == wid) = true := by
      rw [deactivateRecord_id]
      simp [hwid]
    have hact : activate_one (deactivate_all (l1 ++ w :: l2) u t) wid t
        = deactivate_all l1 u t ++
          ({ w with is_active := true, updated_at := t } :: deactivate_all l2 u t) := by
      rw [deactivate_all_append, deactivate_all_cons, activate_one,
        updateFirst_append _ _ hpre hpiv, activate_deactivateRecord]
    have hres : (set_active_wallet (l1 ++ w :: l2) u wid t).1
        = deactivate_all l1 u t ++
          ({ w with is_active := true, updated_at := t } :: deactivate_all l2 u t) := by
      simp only [set_active_wallet, hfind, hact]
    rw [hres]
    constructor
    · have hm1 : (deactivate_all l1 u t).map (fun x => x.id) = l1.map (fun x => x.id) :=
        walletIds_deactivate_all l1 u t
      have hm2 : (deactivate_all l2 u t).map (fun x => x.id) = l2.map (fun x => x.id) :=
        walletIds_deactivate_all l2 u t
      have hawid : ({ w with is_active := true, updated_at := t } : Wallet).id = w.id := rfl
      rw [NodupIds, walletIds, List.map_append, List.map_cons, hm1, hm2, hawid]
      simpa [NodupIds, walletIds] using hnd
    · intro u'
      rw [activeCount, List.countP_append, List.countP_cons]
      by_cases hu : u' = u
      · subst hu
        have hA : (deactivate_all l1 u' t).countP (activeFor u') = 0 := by
          rw [List.countP_eq_zero]
          intro x hx
          simp [deactivate_all_not_active l1 u' t x hx]
        have hB : (deactivate_all l2 u' t).countP (activeFor u') = 0 := by
          rw [List.countP_eq_zero]
          intro x hx
          simp [deactivate_all_not_active l2 u' t x hx]
        rw [hA, hB]
        split <;> omega
      · have hA : (deactivate_all l1 u t).countP (activeFor u') = l1.countP (activeFor u') :=
          activeCount_deactivate_all_other l1 u u' t hu
        have hB : (deactivate_all l2 u t).countP (activeFor u') = l2.countP (activeFor u') :=
          activeCount_deactivate_all_other l2 u u' t hu
        have haw : activeFor u' { w with is_active := true, updated_at := t } = false := by
          simp only [activeFor]
          have : (w.user_id == u') = false := by
            simp [hwu]
            exact fun h => hu (Eq.symm h)
          simp [this]
        have htot := hone u'
        rw [activeCount, List.countP_append, List.countP_cons] at htot
        rw [hA, hB, haw]
        simp only [Bool.false_eq_true, if_false]
        omega

/-- Dropping the middle element of a duplicate-free list keeps it duplicate-free. -/
theorem nodup_append_of_middle {β : Type} {A B : List β} {c : β}
    (h : (A ++ c :: B).Nodup) : (A ++ B).Nodup := by
  rw [List.nodup_append] at h ⊢
  obtain ⟨hA, hcB, hdis⟩ := h
  exact ⟨hA, (List.nodup_cons.mp hcB).2,
    fun a ha hb => hdis ha (List.mem_cons_of_mem _ hb)⟩

/-- `delete_wallet` preserves the unique-id and single-active invariants. -/
theorem delete_wallet_inv (st : List Wallet) (u wid : String) (t : Nat)
    (hnd : NodupIds st) (hone : atMostOneActive st) :
    NodupIds (delete_wallet st u wid t).1 ∧
    atMostOneActive (delete_wallet st u wid t).1 := by
  cases hfind : st.find? (fun w => w.id == wid && w.user_id == u) with
  | none => simp only [delete_wallet, hfind]; exact ⟨hnd, hone⟩
  | some w =>
    obtain ⟨l1, l2, hst, hpw, _⟩ := find?_eq_some_split hfind
    have hwid : w.id = wid := beq_iff_eq.mp ((Bool.and_eq_true _ _).mp hpw).1
    have hwu : w.user_id = u := beq_iff_eq.mp ((Bool.and_eq_true _ _).mp hpw).2
    subst hst
    by_cases hcnt : (l1 ++ w :: l2).countP (fun w => w.user_id == u) ≤ 1
    · simp only [delete_wallet, hfind, if_pos hcnt]
      exact ⟨hnd, hone⟩
    · have hsplit := nodup_map_split (fun x : Wallet => x.id)
        (by simpa [NodupIds, walletIds] using hnd)
      have hdel : deleteFirst (l1 ++ w :: l2) (fun x => x.id == wid) = l1 ++ l2 := by
        refine deleteFirst_append l2 ?_ (by simp [hwid])
        intro x hx
        simpa using hwid ▸ hsplit.1 x hx
      have hnd1 : NodupIds (l1 ++ l2) := by
        have := nodup_append_of_middle
          (by simpa [NodupIds, walletIds] using hnd :
            ((l1.map (fun x => x.id)) ++ w.id :: (l2.map (fun x => x.id))).Nodup)
        simpa [NodupIds, walletIds] using this
      have hone1 : ∀ u'', activeCount (l1 ++ l2) u'' ≤ 1 := by
        intro u''
        have := hone u''
        rw [activeCount, List.countP_append, List.countP_cons] at this
        rw [activeCount, List.countP_append]
        split at this <;> omega
      by_cases hact : w.is_active = true
      · cases hfind2 : (l1 ++ l2).find? (fun x => x.user_id == u) with
        | none =>
          simp only [delete_wallet, hfind, if_neg hcnt, hdel, hact, if_true, hfind2]
          exact ⟨hnd1, hone1⟩
        | some na =>
          obtain ⟨m1, m2, hst1, hpna, hm1⟩ := find?_eq_some_split hfind2
          have hnau : na.user_id = u := beq_iff_eq.mp hpna
          have hzero : activeCount (l1 ++ l2) u = 0 := by
            have := hone u
            rw [activeCount, List.countP_append, List.countP_cons] at this
            have hw : activeFor u w = true := by simp [activeFor, hwu, hact]
            rw [hw, if_pos rfl] at this
            rw [activeCount, List.countP_append]
            omega
          have hsplit2 := nodup_map_split (fun x : Wallet => x.id)
            (by rw [← hst1]; simpa [NodupIds, walletIds] using hnd1)
          have hpre2 : ∀ x ∈ m1, (x.id == na.id) = false := by
            intro x hx
            simpa using hsplit2.1 x hx
          have hact2 : activate_one (l1 ++ l2) na.id t
              = m1 ++ ({ na with is_active := true, updated_at := t } :: m2) := by
            rw [hst1, activate_one, updateFirst_append _ _ hpre2 (by simp)]
          simp only [delete_wallet, hfind, if_neg hcnt, hdel, hact, if_true, hfind2]
          rw [hact2]
          constructor
          · have hawid : ({ na with is_active := true, updated_at := t } : Wallet).id
                = na.id := rfl
            rw [NodupIds, walletIds, List.map_append, List.map_cons, hawid]
            have : NodupIds (m1 ++ na :: m2) := by rw [← hst1]; exact hnd1
            simpa [NodupIds, walletIds] using this
          · intro u''
            have hz2 : (m1 ++ na :: m2).countP (activeFor u) = 0 := by
              rw [← hst1]
              simpa [activeCount] using hzero
            rw [List.countP_append, List.countP_cons] at hz2
            have h12 : activeCount (m1 ++ na :: m2) u'' ≤ 1 := by
              rw [← hst1]; exact hone1 u''
            rw [activeCount, List.countP_append, List.countP_cons] at h12
            rw [activeCount, List.countP_append, List.countP_cons]
            by_cases hu : u'' = u
            · subst hu
              have hana : activeFor u'' { na with is_active := true, updated_at := t }
                  = true := by simp [activeFor, hnau]
              rw [hana, if_pos rfl]
              split at hz2 <;> omega
            · have hana : activeFor u'' { na with is_active := true, updated_at := t }
                  = false := by
                have hne : (na.user_id == u'') = false := by
                  simp [hnau]
                  exact fun h => hu (Eq.symm h)
                simp [activeFor, hne]
              rw [hana]
              simp only [Bool.false_eq_true, if_false]
              split at h12 <;> omega
      · have hact' : w.is_active = false := by simpa using hact
        simp only [delete_wallet, hfind, if_neg hcnt, hdel, hact', if_false]
        exact ⟨hnd1, hone1⟩

/-- Both store invariants are preserved by every CredentialVault call sequence. -/
theorem zeusOps_inv (p : StorePrims) (ops : List ZeusOp) (st : List Wallet)
    (hnd : NodupIds st) (hone : atMostOneActive st) :
    NodupIds (runZeusOps p ops st) ∧ atMostOneActive (runZeusOps p ops st) := by
  induction ops generalizing st with
  | nil => exact ⟨hnd, hone⟩
  | cons op ops ih =>
    rw [runZeusOps, List.foldl_cons]
    cases op with
    | create u n pw kb pk newId s t =>
      obtain ⟨h1, h2⟩ := create_wallet_inv p st u n pw kb pk newId s t hnd hone
      exact ih _ h1 h2
    | importW u n k pw newId s t =>
      obtain ⟨h1, h2⟩ := import_wallet_inv p st u n k pw newId s t hnd hone
      exact ih _ h1 h2
    | setActive u wid t =>
      obtain ⟨h1, h2⟩ := set_active_wallet_inv st u wid t hnd hone
      exact ih _ h1 h2
    | deleteW u wid t =>
      obtain ⟨h1, h2⟩ := delete_wallet_inv st u wid t hnd hone
      exact ih _ h1 h2

/-- Claim C9: a successful `sign_transaction` rewrites only the `status` and
`updated_at` fields of the stored record; every other stored field — in
particular `transaction_data` — keeps the original unsigned blob, other
records are untouched, and a later `get_transaction` therefore returns the
original unsigned blob in its `signed_transaction` field.  The freshly
serialized signed blob exists only in the returned response. -/
theorem sign_transaction_frame (p : StorePrims) (st : List PendingTransaction)
    (txid uid : String) (pk : List Nat) (now : Nat) (tx : PendingTransaction)
    (hnd : (st.map (fun t => t.id)).Nodup)
    (hfind : st.find? (fun t => t.id == txid && t.user_id == uid) = some tx)
    (hok : (sign_transaction p st txid uid pk now).2.isOk = true) :
    ((sign_transaction p st txid uid pk now).1.find?
        (fun t => t.id == txid && t.user_id == uid)
      = some { tx with status := .Signed, updated_at := now }) ∧
    (∀ t' ∈ (sign_transaction p st txid uid pk now).1, t'.id ≠ txid → t' ∈ st) ∧
    (get_transaction (sign_transaction p st txid uid pk now).1 txid uid
      = some { id := tx.id, status := .Signed,
               signed_transaction := some tx.transaction_data,
               message := tx.message }) := by
  simp only [sign_transaction, sign_lookup, hfind] at hok ⊢
  by_cases hpend : tx.status = TransactionStatus.Pending
  case neg =>
    rw [if_pos hpend] at hok
    simp [Except.isOk, Except.toBool] at hok
  case pos =>
    simp only [if_neg (fun h : tx.status ≠ TransactionStatus.Pending => h hpend)] at hok ⊢
    cases hb : p.b64decode tx.transaction_data with
    | none => rw [hb] at hok; simp [Except.isOk, Except.toBool] at hok
    | some bs =>
      simp only [hb] at hok ⊢
      cases hd : p.deserializeTx bs with
      | none => rw [hd] at hok; simp [Except.isOk, Except.toBool] at hok
      | some tr =>
        simp only [hd] at hok ⊢
        cases hk : p.keypairFromBytes pk with
        | none => rw [hk] at hok; simp [Except.isOk, Except.toBool] at hok
        | some kp =>
          simp only [hk] at hok ⊢
          cases hs : p.serializeTx (p.signTx tr pk) with
          | none => rw [hs] at hok; simp [Except.isOk, Except.toBool] at hok
          | some sd =>
            simp only [hs] at hok ⊢
            clear hok
            obtain ⟨l1, l2, hst, hptx, hl1⟩ := find?_eq_some_split hfind
            have htxid : tx.id = txid :=
              beq_iff_eq.mp ((Bool.and_eq_true _ _).mp hptx).1
            have htxu : tx.user_id = uid :=
              beq_iff_eq.mp ((Bool.and_eq_true _ _).mp hptx).2
            subst hst
            have hsplit := nodup_map_split
              (fun x : PendingTransaction => x.id) hnd
            have hpre : ∀ x ∈ l1, (x.id == txid) = false := by
              intro x hx
              simpa using htxid ▸ hsplit.1 x hx
            have hcommit : sign_commit (l1 ++ tx :: l2) txid now
                = l1 ++ ({ tx with status := TransactionStatus.Signed, updated_at := now } :: l2) := by
              rw [sign_commit, updateFirst_append _ _ hpre (by simp [htxid])]
            have hptx' : ((({ tx with status := TransactionStatus.Signed, updated_at := now } : PendingTransaction).id == txid)
                && (({ tx with status := TransactionStatus.Signed, updated_at := now } : PendingTransaction).user_id == uid)) = true := by
              simp [htxid, htxu]
            have hfind2 : (l1 ++ ({ tx with status := TransactionStatus.Signed, updated_at := now } :: l2)).find?
                  (fun t => t.id == txid && t.user_id == uid)
                = some { tx with status := TransactionStatus.Signed, updated_at := now } := by
              rw [find?_append_of_prefix_none _ hl1,
                List.find?_cons_of_pos
                  (p := fun t => t.id == txid && t.user_id == uid) l2 hptx']
            rw [hcommit]
            refine ⟨hfind2, ?_, ?_⟩
            · intro t' ht' hne
              rcases List.mem_append.mp ht' with h1 | h2
              · exact List.mem_append.mpr (Or.inl h1)
              · rcases List.mem_cons.mp h2 with rfl | h3
                · exact absurd htxid hne
                · exact List.mem_append.mpr (Or.inr (List.mem_cons_of_mem _ h3))
            · rw [get_transaction, hfind2]
              simp

/-- Claim C7: `has_permission` returns `true` exactly for the permissions
supplied in the most recent `connect_dapp` call for the `(user, wallet,
origin)` triple — a reconnect replaces the stored permission set in place
rather than adding a second record — and returns `false` (it cannot error)
when no connection exists for the triple. -/
theorem has_permission_spec (st : List DAppConnection)
    (u w o nm : String) (icon : Option String) (perms : List Permission)
    (newId : String) (now : Nat) (perm : Permission)
    (hnd : (st.map (fun c => c.id)).Nodup)
    (hfresh : st.any (fun c => c.id == newId) = false) :
    (has_permission (connect_dapp st u w o nm icon perms newId now).1 u w o perm
        = perms.contains perm) ∧
    (st.find? (tripleMatch u w o) = none → has_permission st u w o perm = false) ∧
    ((st.find? (tripleMatch u w o)).isSome = true →
      (connect_dapp st u w o nm icon perms newId now).1.countP (tripleMatch u w o)
        = st.countP (tripleMatch u w o)) := by
  cases hfind : st.find? (tripleMatch u w o) with
  | none =>
    have hall : ∀ x ∈ st, tripleMatch u w o x = false := by
      intro x hx
      simpa using List.find?_eq_none.mp hfind x hx
    refine ⟨?_, ?_, ?_⟩
    · simp only [connect_dapp, hfind, hfresh, Bool.false_eq_true, if_false]
      rw [has_permission, find?_append_of_prefix_none _ hall]
      simp [tripleMatch]
    · intro _
      rw [has_permission, hfind]
    · intro hcontra
      simp at hcontra
  | some conn =>
    obtain ⟨l1, l2, hst, hpc, hl1⟩ := find?_eq_some_split hfind
    subst hst
    have hsplit := nodup_map_split (fun c : DAppConnection => c.id) hnd
    have hpre : ∀ x ∈ l1, (x.id == conn.id) = false := by
      intro x hx
      simpa using hsplit.1 x hx
    have hupd : updateFirst (l1 ++ conn :: l2) (fun c => c.id == conn.id)
        (fun c => { c with permissions := perms, last_used := now })
        = l1 ++ ({ conn with permissions := perms, last_used := now } :: l2) :=
      updateFirst_append _ _ hpre (by simp)
    have htriple : tripleMatch u w o
        { conn with permissions := perms, last_used := now } = true := by
      simpa [tripleMatch] using hpc
    refine ⟨?_, ?_, ?_⟩
    · simp only [connect_dapp, hfind, hupd]
      rw [has_permission, find?_append_of_prefix_none _ hl1,
        List.find?_cons_of_pos (p := tripleMatch u w o) l2 htriple]
    · intro h
      simp at h
    · intro _
      simp only [connect_dapp, hfind, hupd]
      rw [List.countP_append, List.countP_append, List.countP_cons,
        List.countP_cons, htriple, hpc]

/-- Claim C1 (code bug): a well-formed signature that fails verification
yields `verify_challenge = Ok(false)`, and `verify_auth` discards that
boolean — the privileged call proceeds with the claimed wallet as user id
instead of failing with `Unauthorized`. -/
theorem verify_auth_accepts_mismatched_signature :
    verify_challenge mismatchCrypto "wallet1" "sig1" 100 = .ok false ∧
    verify_auth mismatchCrypto ⟨"wallet1", "sig1", 100⟩ 100 = .ok "wallet1" :=
  ⟨rfl, rfl⟩

/-- Claim C6 counterexample: with a timestamp 2000000000 seconds away from
`now`, `verify_challenge` still returns `Ok(true)` — it takes no clock input
and cannot produce `ChallengeExpired`; the claimed freshness check is absent
from `verify_challenge`. -/
theorem verify_challenge_ignores_staleness :
    ((2000000000 : Int) - 0).natAbs > 300 ∧
    verify_challenge allValidCrypto "wallet1" "sig1" 0 = .ok true :=
  ⟨by decide, rfl⟩

/-- Claim C6 (amended): the freshness window is enforced by
`AuthHeader::verify`, not by `verify_challenge`: `AuthHeader::verify`
returns `ChallengeExpired` exactly when `|now − ts| > 300` and otherwise
returns the signature verdict for the canonical challenge of
`(wallet, ts)`. -/
theorem authheader_verify_freshness (c : CryptoPrims) (h : AuthHeader) (now : Int) :
    ((now - h.timestamp).natAbs > 300 →
      AuthHeader.verify c h now = .error "Challenge expired") ∧
    ((now - h.timestamp).natAbs ≤ 300 →
      AuthHeader.verify c h now
        = verify_signature c (strBytes (create_challenge h.wallet h.timestamp))
            h.signature h.wallet) := by
  constructor
  · intro hstale
    rw [AuthHeader.verify, if_pos hstale]
  · intro hfresh
    rw [AuthHeader.verify, if_neg (Nat.not_lt.mpr hfresh), verify_challenge]

/-- Witness: a header 500 seconds stale is rejected as expired. -/
theorem authheader_verify_freshness_witness :
    AuthHeader.verify allValidCrypto ⟨"wallet2", "sig2", -400⟩ 100
      = .error "Challenge expired" :=
  (authheader_verify_freshness allValidCrypto ⟨"wallet2", "sig2", -400⟩ 100).1
    (by decide)

/-- The prehashed input determines the message: the message itself is a
suffix of `prefixedMessage`, so equal inputs force equal lengths and then
equal messages, despite the wrapping length byte. -/
theorem prefixedMessage_inj {m1 m2 : List Nat}
    (heq : prefixedMessage m1 = prefixedMessage m2) : m1 = m2 := by
  have hlen : m1.length = m2.length := by
    have h := congrArg List.length heq
    simp only [prefixedMessage, List.length_append, List.length_cons] at h
    omega
  rw [prefixedMessage, prefixedMessage, hlen] at heq
  have h2 := List.append_cancel_left heq
  injection h2

/-- Claim C10 counterexample: the non-injectivity clause is false — there are
no two distinct messages over 255 bytes with the same prehashed input,
because the message is embedded verbatim after the length byte. -/
theorem prefixedMessage_injective_refutation :
    ¬ ∃ m1 m2 : List Nat, m1 ≠ m2 ∧ 255 < m1.length ∧ 255 < m2.length ∧
      prefixedMessage m1 = prefixedMessage m2 := by
  rintro ⟨m1, m2, hne, -, -, heq⟩
  exact hne (prefixedMessage_inj heq)

/-- Claim C10 (amended): the length byte at index 24 of the prehashed input
is the message length reduced mod 256 (the wrapping `as u8` cast), so any
two messages whose lengths agree mod 256 carry the same length byte; the
full prehashed input nevertheless remains injective in the message. -/
theorem length_byte_wraps_mod256 (m1 m2 : List Nat)
    (hmod : m1.length % 256 = m2.length % 256) :
    (prefixedMessage m1).get? 24 = some (m1.length % 256) ∧
    (prefixedMessage m1).get? 24 = (prefixedMessage m2).get? 24 ∧
    (prefixedMessage m1 = prefixedMessage m2 → m1 = m2) := by
  have hbyte : ∀ m : List Nat,
      (prefixedMessage m).get? 24 = some (m.length % 256) := by
    intro m
    have h24 : offchainTag.length = 24 := rfl
    rw [prefixedMessage, List.get?_append_right (le_of_eq h24), h24]
    rfl
  refine ⟨hbyte m1, ?_, fun heq => prefixedMessage_inj heq⟩
  rw [hbyte m1, hbyte m2, hmod]

/-- Witness: 300-byte and 556-byte messages share the length byte 44. -/
theorem length_byte_wraps_mod256_witness :
    (List.replicate 300 (0 : Nat)).length % 256
      = (List.replicate 556 (1 : Nat)).length % 256 ∧
    (prefixedMessage (List.replicate 300 (0 : Nat))).get? 24
      = (prefixedMessage (List.replicate 556 (1 : Nat))).get? 24 :=
  ⟨by decide,
   (length_byte_wraps_mod256 (List.replicate 300 0) (List.replicate 556 1)
      (by decide)).2.1⟩

/-- Claim C2 (code bug): `get_private_key` never re-derives or compares the
stored public key, and the XOR scheme cannot fail: with the wrong password
it returns `Ok` carrying garbage bytes instead of a deterministic
`WrongPassword` error. -/
theorem get_private_key_wrong_password_ok :
    (get_private_key wrongPwPrims [storedWallet] "w1" "correct"
      = .ok (List.replicate 64 3)) ∧
    (get_private_key wrongPwPrims [storedWallet] "w1" "wrong"
      = .ok (List.replicate 64 13)) ∧
    (List.replicate 64 13 ≠ (List.replicate 64 3 : List Nat)) :=
  ⟨rfl, rfl, by decide⟩

/-- Claim C3 (code bug): `reject_transaction` has no status condition — on a
record already `Signed` it still answers `Ok(())` and overwrites the status
to `Rejected`; only `sign_transaction` answers `AlreadyProcessed` and leaves
the record unchanged. -/
theorem reject_transaction_overwrites_signed :
    ((reject_transaction [txSigned] "t1" "u1" 5).2 = .ok ()) ∧
    ((reject_transaction [txSigned] "t1" "u1" 5).1
      = [{ txSigned with status := .Rejected, updated_at := 5 }]) ∧
    ((sign_transaction testStorePrims [txSigned] "t1" "u1"
        (List.replicate 64 0) 5).2 = .error "Transaction already processed") ∧
    ((sign_transaction testStorePrims [txSigned] "t1" "u1"
        (List.replicate 64 0) 5).1 = [txSigned]) :=
  ⟨rfl, rfl, rfl, rfl⟩

/-- Claim C4 (code bug): both transitions are read-then-write against the
store.  Two concurrent signers both pass the `Pending` read on the original
store (first conjunct: the read phase succeeds, so a second caller whose
read precedes the first caller's write also succeeds — no `AlreadyProcessed`
for either), and both unconditional writes land (second conjunct).  For the
activation swap, interleaving two callers' deactivate-all and activate-one
steps leaves the user with two active wallets (third conjunct). -/
theorem interleaved_writes_race :
    (sign_lookup [txPending] "t1" "u1" = .ok txPending) ∧
    ((sign_commit (sign_commit [txPending] "t1" 5) "t1" 6).map (fun t => t.status)
      = [TransactionStatus.Signed]) ∧
    (activeCount (activate_one (activate_one
        (deactivate_all (deactivate_all [w1Active, w2Inactive] "u1" 1) "u1" 2)
        "w1" 3) "w2" 4) "u1" = 2) :=
  ⟨rfl, rfl, rfl⟩

/-- Claim C5 counterexample: a user whose first wallet arrives through
`import_wallet` owns one wallet and zero active wallets — `import_wallet`
always inserts with `is_active = false`, so the at-least-one-active half of
the invariant fails. -/
theorem import_first_wallet_inactive :
    ((runZeusOps testStorePrims
        [ZeusOp.importW "u1" "main" importFirstKey "pw" "id1"
          (List.replicate 16 0) 0] []).countP (fun w => w.user_id == "u1") = 1) ∧
    (activeCount (runZeusOps testStorePrims
        [ZeusOp.importW "u1" "main" importFirstKey "pw" "id1"
          (List.replicate 16 0) 0] []) "u1" = 0) := by
  constructor
  · decide
  · decide

/-- Claim C5 (amended): after any sequence of create/import/activate/delete
operations starting from an empty store, every user has at most one active
wallet; the at-least-one-active half of the original claim is refuted by the
import-first counterexample. -/
theorem wallet_activation_at_most_one (p : StorePrims) (ops : List ZeusOp)
    (u : String) : activeCount (runZeusOps p ops []) u ≤ 1 :=
  (zeusOps_inv p ops [] (by simp [NodupIds, walletIds])
    (fun u' => by simp [activeCount])).2 u

/-- Claim C8 (code bug): the hex branch of `import_wallet` is selected by
`private_key.len() == 64`, but the hex encoding of a 64-byte key is 128
characters long (and decodes back to the key, conjuncts 1-2); the import of
that hex encoding therefore falls into the base58 branch and fails. -/
theorem import_hex_encoding_rejected :
    ((hexEncode (List.replicate 64 1)).utf8ByteSize = 128) ∧
    (hexDecode (hexEncode (List.replicate 64 1)) = some (List.replicate 64 1)) ∧
    ((import_wallet testStorePrims [] "u1" "main"
        (hexEncode (List.replicate 64 1)) "pw" "id1" (List.replicate 16 0) 0).2
      = .error "Invalid base58 private key") :=
  ⟨by decide, by decide, rfl⟩

/-- Witness: signing the concrete pending record persists the original blob;
`get_transaction` on the signed record returns that blob. -/
theorem sign_transaction_frame_witness :
    get_transaction (sign_transaction testStorePrims [txPending] "t1" "u1"
        (List.replicate 64 0) 5).1 "t1" "u1"
      = some { id := txPending.id, status := .Signed,
               signed_transaction := some txPending.transaction_data,
               message := txPending.message } :=
  (sign_transaction_frame testStorePrims [txPending] "t1" "u1"
      (List.replicate 64 0) 5 txPending (by decide) (by decide) (by decide)).2.2

/-- Witness: after reconnecting with an enlarged permission set, the added
permission is granted (the spec's Scenario B). -/
theorem has_permission_spec_witness :
    has_permission (connect_dapp [connExample] "u1" "w1" "https://dapp.example"
        "Example" none [Permission.ViewBalance, Permission.RequestTransaction]
        "c2" 7).1 "u1" "w1" "https://dapp.example" Permission.RequestTransaction
      = ([Permission.ViewBalance, Permission.RequestTransaction].contains
          Permission.RequestTransaction) :=
  (has_permission_spec [connExample] "u1" "w1" "https://dapp.example" "Example"
      none [Permission.ViewBalance, Permission.RequestTransaction] "c2" 7
      Permission.RequestTransaction (by decide) (by decide)).1
